import Mathlib

/-!
Shallow embedding of the react-informal form-state engine
(src/lib/index.js: the `Form` container and the `transforms` module).

JavaScript objects with possibly-absent properties are modelled as Lean
structures whose properties are `Option`-valued; an absent property is
`none`.  `R.assoc` on each property is a record update that sets the
property to `some _`; `R.assoc` applied to `undefined` builds an object
holding only the assigned property, which is modelled by updating the
all-`none` record `emptyField`.  The form's `fields` object is modelled
as an insertion-ordered association list, matching the enumeration order
of JavaScript object keys used by `R.values` and `R.map`.  A thrown
TypeError (the only reachable error, `R.reject` over an absent
`validations` list) is modelled by `Option`: `none` is the throw.
Strings stand for field values, messages, submit payloads and errors.
-/

namespace Informal

/-- Model of a validation rule's `test`: either a RegExp (modelled by its
matching function, as used through `R.test`) or a predicate function.
Both receive the field's current `value`, which may be absent. -/
inductive VTest where
  | pattern (tst : Option String → Bool)
  | predicate (tst : Option String → Bool)

/-- A validation rule `{ test, message }` (see `validationType`). -/
structure Validation where
  test : VTest
  message : String

/-- Runs a rule's test against a value: `R.ifElse(R.propIs(RegExp, "test"),
v => R.test(v.test, field.value), v => v.test(field.value))`. -/
def runTest : VTest → Option String → Bool
  | VTest.pattern p, v => p v
  | VTest.predicate p, v => p v

/-- One field's state object.  Every property is optional because the
transforms can build partial objects (via `R.assoc` on `undefined`). -/
structure Field where
  value : Option String := none
  defaultValue : Option String := none
  validations : Option (List Validation) := none
  valid : Option Bool := none
  messages : Option (List String) := none
  active : Option Bool := none
  visited : Option Bool := none
  edited : Option Bool := none
  dirty : Option Bool := none
  submitted : Option Bool := none

/-- The empty JavaScript object `{}`. -/
def emptyField : Field := {}

/-- Coercion at the `R.lensPath(["fields", name])` boundary: `R.over`
hands `undefined` to the update function when the key is missing, and
every update function used here starts with an `R.assoc`, which treats
`undefined` exactly like the empty object. -/
def ofOpt : Option Field → Field
  | some f => f
  | none => emptyField

/-- `isValid = R.propEq("valid", true)`: strict equality against `true`,
so an absent `valid` property counts as not valid. -/
def isValid (f : Field) : Bool := f.valid == some true

/-- `setValid = R.assoc("valid", true)` (field object). -/
def setValid (f : Field) : Field := { f with valid := some true }

/-- `setInvalid = R.assoc("valid", false)` (field object). -/
def setInvalid (f : Field) : Field := { f with valid := some false }

/-- `setDirty = R.assoc("dirty", true)`. -/
def setDirty (f : Field) : Field := { f with dirty := some true }

/-- `setPristine = R.assoc("dirty", false)`. -/
def setPristine (f : Field) : Field := { f with dirty := some false }

/-- `setEdited = R.assoc("edited", true)`. -/
def setEdited (f : Field) : Field := { f with edited := some true }

/-- `setSubmitted = R.assoc("submitted", true)` (field object). -/
def setSubmitted (f : Field) : Field := { f with submitted := some true }

/-- `setActive = R.assoc("active", true)`. -/
def setActive (f : Field) : Field := { f with active := some true }

/-- `setInactive = R.assoc("active", false)`. -/
def setInactive (f : Field) : Field := { f with active := some false }

/-- `setVisited = R.assoc("visited", true)`. -/
def setVisited (f : Field) : Field := { f with visited := some true }

/-- `updateValue = R.assoc("value")`. -/
def updateValue (v : String) (f : Field) : Field := { f with value := some v }

/-- `adjustDirty = R.ifElse(field => field.value === field.defaultValue,
setPristine, setDirty)`.  Values are strings, so `===` is equality of
`Option String` (with `undefined === undefined` true, matching `none`). -/
def adjustDirty (f : Field) : Field :=
  if f.value = f.defaultValue then setPristine f else setDirty f

/-- The failing-rule messages of `validateField`:
`R.map(R.prop("message"), R.reject(<rule passes>, validations))`, in
rule order. -/
def failingMessages (vs : List Validation) (v : Option String) : List String :=
  (vs.filter (fun rule => !(runTest rule.test v))).map Validation.message

/-- `validateField`: rejects the passing rules to collect the failing
ones, maps out their messages, assigns `messages`, then sets `valid`
from emptiness of the just-assigned list.  When `field.validations` is
absent, `R.reject` throws a TypeError, modelled by `none`. -/
def validateField (f : Field) : Option Field :=
  match f.validations with
  | none => none
  | some vs =>
    some (if (failingMessages vs f.value).isEmpty
          then setValid { f with messages := some (failingMessages vs f.value) }
          else setInvalid { f with messages := some (failingMessages vs f.value) })

/-- Lookup of `fields[name]` in the association-list model of the
`fields` object; `none` is JavaScript `undefined`. -/
def lookupField (n : String) : List (String × Field) → Option Field
  | [] => none
  | (m, f) :: rest => if m = n then some f else lookupField n rest

/-- Key assignment on the `fields` object (`R.assocPath` / the setter of
`R.lensPath`): an existing key keeps its position, a new key is
appended, matching JavaScript key enumeration order. -/
def assocField (n : String) (f : Field) : List (String × Field) → List (String × Field)
  | [] => [(n, f)]
  | (m, g) :: rest => if m = n then (n, f) :: rest else (m, g) :: assocField n f rest

/-- Key removal on the `fields` object (`R.dissocPath(["fields", name])`):
the object without the key `n`, other keys kept in order. -/
def dissocField (n : String) : List (String × Field) → List (String × Field)
  | [] => []
  | (m, f) :: rest => if m = n then dissocField n rest else (m, f) :: dissocField n rest

/-- The form state held by the `Form` component (`this.form`), with its
initial object's properties. -/
structure FormState where
  status : String
  submitted : Bool
  data : Option String
  error : Option String
  valid : Bool
  touched : Bool
  dirty : Bool
  fields : List (String × Field)

/-- The initial `this.form` object of the `Form` component. -/
def initialForm : FormState :=
  { status := "initial", submitted := false, data := none, error := none,
    valid := true, touched := false, dirty := false, fields := [] }

/-- `adjustFormField = R.curryN(3, (name, fn, form) =>
R.over(R.lensPath(["fields", name]), fn, form))`.  `R.over` applies `fn`
to `fields[name]` (possibly `undefined`, see `ofOpt`) and writes the
result back. -/
def adjustFormField (n : String) (fn : Field → Field) (s : FormState) : FormState :=
  { s with fields := assocField n (fn (ofOpt (lookupField n s.fields))) s.fields }

/-- `allValid = R.compose(R.all(isValid), R.values)`. -/
def allValid (l : List (String × Field)) : Bool := l.all (fun p => isValid p.2)

/-- `setFormFieldsSubmitted = R.over(R.lensProp("fields"), R.map(setSubmitted))`. -/
def setFormFieldsSubmitted (s : FormState) : FormState :=
  { s with fields := s.fields.map (fun p => (p.1, setSubmitted p.2)) }

/-- `validateForm = R.ifElse(R.propSatisfies(allValid, "fields"),
setValid, setInvalid)` where the assignment targets the form's `valid`
property (always present on the form object, hence a plain `Bool`). -/
def validateForm (s : FormState) : FormState :=
  if allValid s.fields then { s with valid := true } else { s with valid := false }

/-- `withInputDefaults` builds a brand-new field object from the
registration props.  `field.defaultValue || ""` falls back to the empty
string exactly when the prop is absent or itself `""` (the only falsy
string), so it equals `getD ""`; likewise `validations || []` is
`getD []` for a list-or-absent prop.  `messages` and `valid` are not
assigned here (they are filled in by `validateField`). -/
def withInputDefaults (defaultValue : Option String)
    (validations : Option (List Validation)) : Field :=
  { value := some (defaultValue.getD ""),
    defaultValue := some (defaultValue.getD ""),
    validations := some (validations.getD []),
    submitted := some false, active := some false, edited := some false,
    visited := some false, dirty := some false }

/-- `initField = R.compose(validateField, withInputDefaults)`.  The
fallback branch is unreachable because `withInputDefaults` always
assigns a `validations` list (see `initField_eq`). -/
def initField (dv : Option String) (vs : Option (List Validation)) : Field :=
  match validateField (withInputDefaults dv vs) with
  | some f => f
  | none => withInputDefaults dv vs

/-- `getFormValues = form => R.map(field => field.value, form.fields)`. -/
def getFormValues (s : FormState) : List (String × Option String) :=
  s.fields.map (fun p => (p.1, p.2.value))

/-- Transform `addField({name, defaultValue, validations})`. -/
def addField (name : String) (dv : Option String)
    (vs : Option (List Validation)) (s : FormState) : FormState :=
  validateForm { s with fields := assocField name (initField dv vs) s.fields }

/-- Transform `removeField(name)`. -/
def removeField (name : String) (s : FormState) : FormState :=
  validateForm { s with fields := dissocField name s.fields }

/-- Transform `onFieldChange(name, value)`: the per-field update is
`R.compose(setEdited, adjustDirty, validateField, updateValue(value))`
under `adjustFormField`, followed by `validateForm`.  `validateField`
can throw (absent `validations`), which aborts the whole transform. -/
def onFieldChange (name value : String) (s : FormState) : Option FormState :=
  match validateField (updateValue value (ofOpt (lookupField name s.fields))) with
  | none => none
  | some f =>
    some (validateForm
      { s with fields := assocField name (setEdited (adjustDirty f)) s.fields })

/-- Transform `onFieldFocus(name)`. -/
def onFieldFocus (name : String) (s : FormState) : FormState :=
  adjustFormField name setActive s

/-- Transform `onFieldBlur(name)`. -/
def onFieldBlur (name : String) (s : FormState) : FormState :=
  adjustFormField name (fun f => setInactive (setVisited f)) s

/-- Transform `onFormSubmitInvalid()`. -/
def onFormSubmitInvalid (s : FormState) : FormState :=
  setFormFieldsSubmitted { s with submitted := true }

/-- Transform `onFormSubmit()`. -/
def onFormSubmit (s : FormState) : FormState :=
  setFormFieldsSubmitted { s with status := "pending", submitted := true }

/-- Transform `onFormSubmitSuccess(data)`. -/
def onFormSubmitSuccess (d : String) (s : FormState) : FormState :=
  { s with status := "fulfilled", data := some d }

/-- Transform `onFormSubmitError(error)`. -/
def onFormSubmitError (e : String) (s : FormState) : FormState :=
  { s with status := "rejected", error := some e }

/-- The exported transforms, as events. -/
inductive Event where
  | addField (name : String) (defaultValue : Option String)
      (validations : Option (List Validation))
  | removeField (name : String)
  | fieldChange (name : String) (value : String)
  | fieldFocus (name : String)
  | fieldBlur (name : String)
  | formSubmitInvalid
  | formSubmit
  | formSubmitSuccess (data : String)
  | formSubmitError (error : String)

/-- One `update(transform)` step of the `Form` container; `none` is a
thrown TypeError. -/
def applyEvent : Event → FormState → Option FormState
  | Event.addField n dv vs, s => some (addField n dv vs s)
  | Event.removeField n, s => some (removeField n s)
  | Event.fieldChange n v, s => onFieldChange n v s
  | Event.fieldFocus n, s => some (onFieldFocus n s)
  | Event.fieldBlur n, s => some (onFieldBlur n s)
  | Event.formSubmitInvalid, s => some (onFormSubmitInvalid s)
  | Event.formSubmit, s => some (onFormSubmit s)
  | Event.formSubmitSuccess d, s => some (onFormSubmitSuccess d s)
  | Event.formSubmitError e, s => some (onFormSubmitError e s)

/-- Form states reachable from the initial state by any sequence of
exported transforms. -/
inductive Reachable : FormState → Prop where
  | init : Reachable initialForm
  | step {s s' : FormState} {e : Event} :
      Reachable s → applyEvent e s = some s' → Reachable s'

/-- Restriction used by the amended form-validity claim: focus and blur
may only target a name currently present in `fields`. -/
def eventOk (e : Event) (s : FormState) : Prop :=
  match e with
  | Event.fieldFocus n => (lookupField n s.fields).isSome = true
  | Event.fieldBlur n => (lookupField n s.fields).isSome = true
  | _ => True

/-- Form states reachable when focus and blur target registered names. -/
inductive ReachableReg : FormState → Prop where
  | init : ReachableReg initialForm
  | step {s s' : FormState} {e : Event} :
      ReachableReg s → eventOk e s → applyEvent e s = some s' → ReachableReg s'

/-- Outcome of one `submit()` call: the final form state, the value the
returned promise resolves with (`none` is the `null` sentinel; the
`Except` tags which code path produced the value), and whether the
externally supplied submit function was invoked.  `submit` being a total
Lean function is the model of "the rejection is caught, never re-thrown
past the container boundary". -/
structure SubmitRun where
  state : FormState
  result : Option (Except String String)
  externalCalled : Bool

/-- The `Form.submit` method.  The external `onSubmit` prop is modelled
as a function from the projected values to `Except` (promise rejection
on the left, fulfillment on the right).  Events interleaved during the
asynchronous suspension are not modelled: the settlement transform is
applied to the state produced by `onFormSubmit`. -/
def submit (onSubmit : List (String × Option String) → Except String String)
    (s : FormState) : SubmitRun :=
  if s.valid then
    match onSubmit (getFormValues (onFormSubmit s)) with
    | Except.ok r =>
      ⟨onFormSubmitSuccess r (onFormSubmit s), some (Except.ok r), true⟩
    | Except.error e =>
      ⟨onFormSubmitError e (onFormSubmit s), some (Except.error e), true⟩
  else
    ⟨onFormSubmitInvalid s, none, false⟩

/-- `subscribe = cb => { this.subscriptions.push(cb); ... }`: appends the
callback to the ordered subscription list.  Callbacks are identified by
reference; reference identity is modelled by `Nat` identifiers. -/
def subscribe (cb : Nat) (subs : List Nat) : List Nat := subs ++ [cb]

/-- The unsubscribe closure returned by `subscribe`:
`this.subscriptions = this.subscriptions.filter(sub => sub !== cb)`. -/
def unsubscribe (cb : Nat) (subs : List Nat) : List Nat :=
  subs.filter (fun sub => sub != cb)

/-! Concrete states used to exercise the theorems on explicit inputs. -/

/-- The rule `{ test: /.+/, message: "required" }` from the repository's
example (`required`), with the RegExp modelled by its matcher. -/
def requiredRule : Validation :=
  ⟨VTest.pattern (fun v => !(v.getD "").isEmpty), "required"⟩

/-- An external submit function whose promise always fulfills. -/
def okSubmit : List (String × Option String) → Except String String :=
  fun _ => Except.ok "ok"

/-- An external submit function whose promise always rejects. -/
def errSubmit : List (String × Option String) → Except String String :=
  fun _ => Except.error "network error"

/-- The state after registering rule-free field `"x"`. -/
def addedX : FormState := addField "x" none none initialForm

/-- The state after additionally blurring `"x"` (so `visited` is set). -/
def blurredX : FormState := onFieldBlur "x" addedX

/-- The state after re-registering `"x"` on top of `blurredX`. -/
def readdedX : FormState := addField "x" none none blurredX

/-- The state after focusing the unregistered name `"x"` on the initial
state: it holds a phantom field. -/
def phantomX : FormState := onFieldFocus "x" initialForm

/-- The state after changing field `"x"` of `addedX` to `"hi"`. -/
def changedX : FormState := (onFieldChange "x" "hi" addedX).getD initialForm

/-- The field entry of `"x"` inside `changedX`. -/
def fldChangedX : Field := (lookupField "x" changedX.fields).getD emptyField

/-- An invalid form: field `"r"` is registered with `requiredRule` and an
empty value, so the form's `valid` is `false`. -/
def invalidS : FormState := addField "r" none (some [requiredRule]) initialForm

/-! ### Lemmas about the fields map -/

theorem lookupField_assocField (n m : String) (f : Field) :
    ∀ l, lookupField n (assocField m f l) =
      if m = n then some f else lookupField n l := by
  intro l
  induction l with
  | nil => simp [assocField, lookupField]
  | cons p rest ih =>
    obtain ⟨k, g⟩ := p
    by_cases hkm : k = m
    · subst hkm
      by_cases hkn : k = n <;> simp [assocField, lookupField, hkn]
    · by_cases hkn : k = n
      · subst hkn
        have hmn : ¬ m = k := fun h => hkm h.symm
        simp [assocField, lookupField, hkm, hmn]
      · simp [assocField, lookupField, hkm, hkn, ih]

theorem lookupField_dissocField (n m : String) :
    ∀ l, lookupField n (dissocField m l) =
      if m = n then none else lookupField n l := by
  intro l
  induction l with
  | nil => simp [dissocField, lookupField]
  | cons p rest ih =>
    obtain ⟨k, g⟩ := p
    by_cases hkm : k = m
    · subst hkm
      by_cases hkn : k = n
      · subst hkn
        simpa [dissocField, lookupField] using ih
      · simp [dissocField, lookupField, hkn, ih]
    · by_cases hkn : k = n
      · subst hkn
        have hmn : ¬ m = k := fun h => hkm h.symm
        simp [dissocField, lookupField, hkm, hmn]
      · simp [dissocField, lookupField, hkm, hkn, ih]

theorem lookupField_mapVal (g : Field → Field) (n : String) :
    ∀ l, lookupField n (l.map (fun p => (p.1, g p.2))) =
      (lookupField n l).map g := by
  intro l
  induction l with
  | nil => rfl
  | cons p rest ih =>
    obtain ⟨k, q⟩ := p
    by_cases hkn : k = n <;> simp [lookupField, hkn, ih]

theorem allValid_assocField (n : String) (f g : Field) :
    ∀ l, lookupField n l = some g → isValid f = isValid g →
      allValid (assocField n f l) = allValid l := by
  intro l
  induction l with
  | nil => intro h _; simp [lookupField] at h
  | cons p rest ih =>
    obtain ⟨k, q⟩ := p
    intro hl hv
    by_cases hkn : k = n
    · subst hkn
      simp [lookupField] at hl
      subst hl
      simp [assocField, allValid, hv]
    · have hl2 : lookupField n rest = some g := by
        simpa [lookupField, hkn] using hl
      have hrec := ih hl2 hv
      unfold allValid at hrec ⊢
      simp only [assocField, if_neg hkn, List.all_cons]
      rw [hrec]

theorem allValid_map_setSubmitted :
    ∀ l, allValid (l.map (fun p => (p.1, setSubmitted p.2))) = allValid l := by
  intro l
  induction l with
  | nil => rfl
  | cons p rest ih =>
    simp only [List.map_cons, allValid, List.all_cons] at ih ⊢
    rw [ih]
    rfl

/-! ### Lemmas about the validation engine and form revalidation -/

theorem validateForm_fields (s : FormState) : (validateForm s).fields = s.fields := by
  unfold validateForm; split <;> rfl

theorem validateForm_valid (s : FormState) :
    (validateForm s).valid = allValid s.fields := by
  unfold validateForm
  split
  · next h => simp [h]
  · next h =>
    rw [Bool.not_eq_true] at h
    simp [h]

theorem validateForm_frame (s : FormState) :
    (validateForm s).status = s.status ∧ (validateForm s).submitted = s.submitted ∧
    (validateForm s).data = s.data ∧ (validateForm s).error = s.error := by
  unfold validateForm; split <;> exact ⟨rfl, rfl, rfl, rfl⟩

theorem validateField_none_iff (f : Field) :
    validateField f = none ↔ f.validations = none := by
  cases hv : f.validations <;> simp [validateField, hv]

theorem validateField_some (f g : Field) (h : validateField f = some g) :
    g.value = f.value ∧ g.defaultValue = f.defaultValue ∧
    g.validations = f.validations ∧ g.active = f.active ∧
    g.visited = f.visited ∧ g.edited = f.edited ∧
    g.dirty = f.dirty ∧ g.submitted = f.submitted ∧
    (g.valid = some true ↔ g.messages = some []) := by
  cases hv : f.validations with
  | none => simp [validateField, hv] at h
  | some vs =>
    simp only [validateField, hv, Option.some.injEq] at h
    subst h
    by_cases hc : (failingMessages vs f.value).isEmpty
    · rw [if_pos hc]
      have hnil : failingMessages vs f.value = [] := List.isEmpty_iff.mp hc
      refine ⟨rfl, rfl, rfl, rfl, rfl, rfl, rfl, rfl, ?_⟩
      simp [setValid, hnil]
    · rw [if_neg hc]
      have hne : failingMessages vs f.value ≠ [] := by
        intro hh; rw [hh] at hc; exact hc rfl
      refine ⟨rfl, rfl, rfl, rfl, rfl, rfl, rfl, rfl, ?_⟩
      simp [setInvalid, hne]

theorem initField_spec (dv : Option String) (vs : Option (List Validation)) :
    validateField (withInputDefaults dv vs) = some (initField dv vs) := by
  unfold initField
  cases h : validateField (withInputDefaults dv vs) with
  | none =>
    rw [validateField_none_iff] at h
    simp [withInputDefaults] at h
  | some g => rfl

theorem adjustDirty_frame (f : Field) :
    (adjustDirty f).value = f.value ∧ (adjustDirty f).defaultValue = f.defaultValue ∧
    (adjustDirty f).validations = f.validations ∧ (adjustDirty f).valid = f.valid ∧
    (adjustDirty f).messages = f.messages ∧ (adjustDirty f).active = f.active ∧
    (adjustDirty f).visited = f.visited ∧ (adjustDirty f).edited = f.edited ∧
    (adjustDirty f).submitted = f.submitted := by
  unfold adjustDirty; split <;> exact ⟨rfl, rfl, rfl, rfl, rfl, rfl, rfl, rfl, rfl⟩

theorem adjustDirty_dirty_iff (f : Field) :
    ((adjustDirty f).dirty = some true ↔ f.value ≠ f.defaultValue) := by
  unfold adjustDirty
  split
  · next h => simp [setPristine, h]
  · next h => simp [setDirty, h]

/-! ### Preservation of the form-level validity equation -/

theorem formValid_step (e : Event) (s s' : FormState)
    (hok : eventOk e s) (happ : applyEvent e s = some s')
    (ih : s.valid = allValid s.fields) : s'.valid = allValid s'.fields := by
  cases e with
  | addField n dv vs =>
    simp only [applyEvent, Option.some.injEq] at happ
    subst happ
    simp [addField, validateForm_valid, validateForm_fields]
  | removeField n =>
    simp only [applyEvent, Option.some.injEq] at happ
    subst happ
    simp [removeField, validateForm_valid, validateForm_fields]
  | fieldChange n v =>
    simp only [applyEvent] at happ
    unfold onFieldChange at happ
    cases hm : validateField (updateValue v (ofOpt (lookupField n s.fields))) with
    | none => rw [hm] at happ; exact absurd happ (by simp)
    | some q =>
      rw [hm] at happ
      simp only [Option.some.injEq] at happ
      subst happ
      simp [validateForm_valid, validateForm_fields]
  | fieldFocus n =>
    simp only [applyEvent, Option.some.injEq] at happ
    subst happ
    have hok2 : (lookupField n s.fields).isSome = true := hok
    obtain ⟨f, hf⟩ := Option.isSome_iff_exists.mp hok2
    have hall : allValid (assocField n (setActive (ofOpt (lookupField n s.fields)))
        s.fields) = allValid s.fields := by
      rw [hf]
      exact allValid_assocField n _ f s.fields hf rfl
    show s.valid = allValid (assocField n (setActive (ofOpt (lookupField n s.fields))) s.fields)
    rw [hall]
    exact ih
  | fieldBlur n =>
    simp only [applyEvent, Option.some.injEq] at happ
    subst happ
    have hok2 : (lookupField n s.fields).isSome = true := hok
    obtain ⟨f, hf⟩ := Option.isSome_iff_exists.mp hok2
    have hall : allValid (assocField n (setInactive (setVisited
        (ofOpt (lookupField n s.fields)))) s.fields) = allValid s.fields := by
      rw [hf]
      exact allValid_assocField n _ f s.fields hf rfl
    show s.valid = allValid (assocField n (setInactive (setVisited
      (ofOpt (lookupField n s.fields)))) s.fields)
    rw [hall]
    exact ih
  | formSubmitInvalid =>
    simp only [applyEvent, Option.some.injEq] at happ
    subst happ
    show s.valid = allValid (s.fields.map (fun p => (p.1, setSubmitted p.2)))
    rw [allValid_map_setSubmitted]
    exact ih
  | formSubmit =>
    simp only [applyEvent, Option.some.injEq] at happ
    subst happ
    show s.valid = allValid (s.fields.map (fun p => (p.1, setSubmitted p.2)))
    rw [allValid_map_setSubmitted]
    exact ih
  | formSubmitSuccess d =>
    simp only [applyEvent, Option.some.injEq] at happ
    subst happ
    exact ih
  | formSubmitError e =>
    simp only [applyEvent, Option.some.injEq] at happ
    subst happ
    exact ih

/-! ### Preservation of the per-field validity invariant -/

theorem fieldInv_step (e : Event) (s s' : FormState)
    (happ : applyEvent e s = some s')
    (ih : ∀ n f, lookupField n s.fields = some f →
      (f.valid = some true ↔ f.messages = some [])) :
    ∀ n f, lookupField n s'.fields = some f →
      (f.valid = some true ↔ f.messages = some []) := by
  cases e with
  | addField m dv vs =>
    simp only [applyEvent, Option.some.injEq] at happ
    subst happ
    intro n f hf
    simp only [addField, validateForm_fields] at hf
    rw [lookupField_assocField] at hf
    split at hf
    · rw [Option.some.injEq] at hf
      subst hf
      exact (validateField_some _ _ (initField_spec dv vs)).2.2.2.2.2.2.2.2
    · exact ih n f hf
  | removeField m =>
    simp only [applyEvent, Option.some.injEq] at happ
    subst happ
    intro n f hf
    simp only [removeField, validateForm_fields] at hf
    rw [lookupField_dissocField] at hf
    split at hf
    · exact absurd hf (by simp)
    · exact ih n f hf
  | fieldChange m v =>
    simp only [applyEvent] at happ
    unfold onFieldChange at happ
    cases hm : validateField (updateValue v (ofOpt (lookupField m s.fields))) with
    | none => rw [hm] at happ; exact absurd happ (by simp)
    | some q =>
      rw [hm] at happ
      simp only [Option.some.injEq] at happ
      subst happ
      intro n f hf
      simp only [validateForm_fields] at hf
      rw [lookupField_assocField] at hf
      split at hf
      · rw [Option.some.injEq] at hf
        subst hf
        have hframe := adjustDirty_frame q
        show (adjustDirty q).valid = some true ↔ (adjustDirty q).messages = some []
        rw [hframe.2.2.2.1, hframe.2.2.2.2.1]
        exact (validateField_some _ q hm).2.2.2.2.2.2.2.2
      · exact ih n f hf
  | fieldFocus m =>
    simp only [applyEvent, Option.some.injEq] at happ
    subst happ
    intro n f hf
    have hf2 : lookupField n (assocField m (setActive (ofOpt (lookupField m s.fields)))
        s.fields) = some f := hf
    rw [lookupField_assocField] at hf2
    split at hf2
    · cases hl : lookupField m s.fields with
      | none =>
        rw [hl] at hf2
        rw [Option.some.injEq] at hf2
        subst hf2
        simp [setActive, ofOpt, emptyField]
      | some f0 =>
        rw [hl] at hf2
        rw [Option.some.injEq] at hf2
        subst hf2
        exact ih m f0 hl
    · exact ih n f hf2
  | fieldBlur m =>
    simp only [applyEvent, Option.some.injEq] at happ
    subst happ
    intro n f hf
    have hf2 : lookupField n (assocField m (setInactive (setVisited
        (ofOpt (lookupField m s.fields)))) s.fields) = some f := hf
    rw [lookupField_assocField] at hf2
    split at hf2
    · cases hl : lookupField m s.fields with
      | none =>
        rw [hl] at hf2
        rw [Option.some.injEq] at hf2
        subst hf2
        simp [setInactive, setVisited, ofOpt, emptyField]
      | some f0 =>
        rw [hl] at hf2
        rw [Option.some.injEq] at hf2
        subst hf2
        exact ih m f0 hl
    · exact ih n f hf2
  | formSubmitInvalid =>
    simp only [applyEvent, Option.some.injEq] at happ
    subst happ
    intro n f hf
    have hf2 : lookupField n (s.fields.map (fun p => (p.1, setSubmitted p.2)))
        = some f := hf
    rw [lookupField_mapVal] at hf2
    cases hl : lookupField n s.fields with
    | none => rw [hl] at hf2; exact absurd hf2 (by simp)
    | some f0 =>
      rw [hl] at hf2
      simp only [Option.map_some', Option.some.injEq] at hf2
      subst hf2
      exact ih n f0 hl
  | formSubmit =>
    simp only [applyEvent, Option.some.injEq] at happ
    subst happ
    intro n f hf
    have hf2 : lookupField n (s.fields.map (fun p => (p.1, setSubmitted p.2)))
        = some f := hf
    rw [lookupField_mapVal] at hf2
    cases hl : lookupField n s.fields with
    | none => rw [hl] at hf2; exact absurd hf2 (by simp)
    | some f0 =>
      rw [hl] at hf2
      simp only [Option.map_some', Option.some.injEq] at hf2
      subst hf2
      exact ih n f0 hl
  | formSubmitSuccess d =>
    simp only [applyEvent, Option.some.injEq] at happ
    subst happ
    intro n f hf
    exact ih n f hf
  | formSubmitError e =>
    simp only [applyEvent, Option.some.injEq] at happ
    subst happ
    intro n f hf
    exact ih n f hf

theorem fieldInv_reachable (s : FormState) (hs : Reachable s) :
    ∀ n f, lookupField n s.fields = some f →
      (f.valid = some true ↔ f.messages = some []) := by
  induction hs with
  | init => intro n f hf; simp [initialForm, lookupField] at hf
  | step hr happ ih => intro n f hf; exact fieldInv_step _ _ _ happ ih n f hf

/-! ### Claims -/

/-- C1, counterexample: the form-validity invariant is violated by a
reachable state.  Focusing the unregistered name `"x"` on the initial
state inserts a phantom field whose `valid` property is absent, so the
conjunction over fields of `field.valid` becomes `false` while the
form's `valid` flag is left `true`. -/
theorem form_validity_invariant_fails_on_phantom :
    Reachable phantomX ∧ phantomX.valid = true ∧
    allValid phantomX.fields = false ∧
    phantomX.valid ≠ allValid phantomX.fields :=
  ⟨@Reachable.step initialForm phantomX (Event.fieldFocus "x") Reachable.init rfl,
   rfl, rfl, by decide⟩

/-- C1 (amended): for every form state reachable from the initial state
by a sequence of exported transforms in which `onFieldFocus` and
`onFieldBlur` are only applied to names currently present in `fields`,
the form's `valid` flag equals the conjunction of `field.valid` over
every entry of `fields`, vacuously true when `fields` is empty. -/
theorem form_validity_invariant_registered (s : FormState)
    (h : ReachableReg s) : s.valid = allValid s.fields := by
  induction h with
  | init => rfl
  | step hr hok happ ih => exact formValid_step _ _ _ hok happ ih

/-- Witness for C1 (amended) at the concrete reachable state `addedX`. -/
theorem form_validity_invariant_registered_witness :
    addedX.valid = allValid addedX.fields :=
  form_validity_invariant_registered addedX
    (@ReachableReg.step initialForm addedX (Event.addField "x" none none)
      ReachableReg.init trivial rfl)

/-- C2: for every field state present in a form state reachable by any
sequence of exported transforms, `field.valid` is `true` exactly when
`field.messages` is the empty list (phantom fields, which carry neither
property, satisfy the equivalence vacuously). -/
theorem field_validity_invariant (s : FormState) (n : String) (f : Field)
    (hs : Reachable s) (hf : lookupField n s.fields = some f) :
    (f.valid = some true ↔ f.messages = some []) :=
  fieldInv_reachable s hs n f hf

/-- Witness for C2 at the concrete reachable state `addedX` and its
field `"x"`. -/
theorem field_validity_invariant_witness :
    ((initField none none).valid = some true ↔
      (initField none none).messages = some []) :=
  field_validity_invariant addedX "x" (initField none none)
    (@Reachable.step initialForm addedX (Event.addField "x" none none)
      Reachable.init rfl) rfl

/-- C3: a `submit()` on an invalid form never invokes the external
submit function, leaves `status` unchanged, sets the form's `submitted`
and every field's `submitted` to true, and resolves with the `null`
sentinel. -/
theorem invalid_submit_no_external_call
    (onSubmit : List (String × Option String) → Except String String)
    (s : FormState) (h : s.valid = false) :
    (submit onSubmit s).externalCalled = false ∧
    (submit onSubmit s).result = none ∧
    (submit onSubmit s).state.status = s.status ∧
    (submit onSubmit s).state.submitted = true ∧
    (submit onSubmit s).state.fields.all
      (fun p => p.2.submitted == some true) = true := by
  have hns : ¬ s.valid = true := by rw [h]; simp
  have hsub : submit onSubmit s = ⟨onFormSubmitInvalid s, none, false⟩ := by
    unfold submit
    rw [if_neg hns]
  rw [hsub]
  refine ⟨rfl, rfl, rfl, rfl, ?_⟩
  show (s.fields.map (fun p => (p.1, setSubmitted p.2))).all
    (fun p => p.2.submitted == some true) = true
  rw [List.all_map]
  refine List.all_eq_true.mpr ?_
  intro p hp
  rfl

/-- Witness for C3 at the concrete invalid state `invalidS`. -/
theorem invalid_submit_no_external_call_witness :
    invalidS.valid = false ∧
    (submit okSubmit invalidS).externalCalled = false ∧
    (submit okSubmit invalidS).result = none ∧
    (submit okSubmit invalidS).state.status = invalidS.status ∧
    (submit okSubmit invalidS).state.submitted = true ∧
    (submit okSubmit invalidS).state.fields.all
      (fun p => p.2.submitted == some true) = true := by
  have h := invalid_submit_no_external_call okSubmit invalidS rfl
  exact ⟨rfl, h.1, h.2.1, h.2.2.1, h.2.2.2.1, h.2.2.2.2⟩

/-- C4: when the form is valid and the external submit function rejects
with `e`, `submit()` catches the rejection (it is a total function whose
promise resolves, never rejects), the final state has `error = e` and
`status = "rejected"` with `data` untouched, and the resolved value is
`e` itself. -/
theorem failed_submit_resolves_with_error
    (onSubmit : List (String × Option String) → Except String String)
    (s : FormState) (e : String)
    (hvalid : s.valid = true)
    (hrej : onSubmit (getFormValues (onFormSubmit s)) = Except.error e) :
    (submit onSubmit s).externalCalled = true ∧
    (submit onSubmit s).result = some (Except.error e) ∧
    (submit onSubmit s).state.status = "rejected" ∧
    (submit onSubmit s).state.error = some e ∧
    (submit onSubmit s).state.data = s.data := by
  have hsub : submit onSubmit s =
      ⟨onFormSubmitError e (onFormSubmit s), some (Except.error e), true⟩ := by
    unfold submit
    rw [if_pos hvalid, hrej]
  rw [hsub]
  exact ⟨rfl, rfl, rfl, rfl, rfl⟩

/-- Witness for C4 at the concrete valid state `addedX` with the
rejecting submit function `errSubmit`. -/
theorem failed_submit_resolves_with_error_witness :
    (submit errSubmit addedX).externalCalled = true ∧
    (submit errSubmit addedX).result = some (Except.error "network error") ∧
    (submit errSubmit addedX).state.status = "rejected" ∧
    (submit errSubmit addedX).state.error = some "network error" ∧
    (submit errSubmit addedX).state.data = addedX.data :=
  failed_submit_resolves_with_error errSubmit addedX "network error" rfl rfl

/-- C7: the unsubscribe function returned by `subscribe(cb)` removes
exactly `cb` from the subscription list, by identity: every other
observer's registration survives in its original order, wherever it
sits relative to `cb`. -/
theorem unsubscribe_removes_exactly_callback (pre post : List Nat) (cb : Nat)
    (hpre : cb ∉ pre) (hpost : cb ∉ post) :
    unsubscribe cb (subscribe cb pre ++ post) = pre ++ post := by
  have hkeep : ∀ l : List Nat, cb ∉ l → l.filter (fun sub => sub != cb) = l := by
    intro l hl
    refine List.filter_eq_self.mpr ?_
    intro a ha
    rw [bne_iff_ne]
    intro hac
    exact hl (hac ▸ ha)
  unfold subscribe unsubscribe
  rw [List.filter_append, List.filter_append, hkeep pre hpre, hkeep post hpost]
  simp

/-- Witness for C7 with observer 2 subscribed between observers 1 and 3. -/
theorem unsubscribe_removes_exactly_callback_witness :
    unsubscribe 2 (subscribe 2 [1] ++ [3]) = [1] ++ [3] :=
  unsubscribe_removes_exactly_callback [1] [3] 2 (by decide) (by decide)

/-- C8: focusing a registered field sets only that field's `active` flag
to true; every form-level property, every other property of the field,
and every other field are unchanged. -/
theorem focus_frame_effect (s : FormState) (n : String) (f : Field)
    (hf : lookupField n s.fields = some f) :
    (onFieldFocus n s).status = s.status ∧
    (onFieldFocus n s).submitted = s.submitted ∧
    (onFieldFocus n s).data = s.data ∧
    (onFieldFocus n s).error = s.error ∧
    (onFieldFocus n s).valid = s.valid ∧
    (onFieldFocus n s).touched = s.touched ∧
    (onFieldFocus n s).dirty = s.dirty ∧
    lookupField n (onFieldFocus n s).fields = some { f with active := some true } ∧
    (∀ m, m ≠ n → lookupField m (onFieldFocus n s).fields = lookupField m s.fields) := by
  refine ⟨rfl, rfl, rfl, rfl, rfl, rfl, rfl, ?_, ?_⟩
  · show lookupField n (assocField n (setActive (ofOpt (lookupField n s.fields)))
      s.fields) = _
    rw [lookupField_assocField, if_pos rfl, hf]
    rfl
  · intro m hm
    show lookupField m (assocField n (setActive (ofOpt (lookupField n s.fields)))
      s.fields) = _
    rw [lookupField_assocField, if_neg (fun hnm => hm hnm.symm)]

/-- Witness for C8 at `addedX`, its field `"x"` and the absent name `"y"`. -/
theorem focus_frame_effect_witness :
    (onFieldFocus "x" addedX).valid = addedX.valid ∧
    lookupField "x" (onFieldFocus "x" addedX).fields =
      some { (initField none none) with active := some true } ∧
    lookupField "y" (onFieldFocus "x" addedX).fields =
      lookupField "y" addedX.fields := by
  obtain ⟨-, -, -, -, h5, -, -, h8, h9⟩ :=
    focus_frame_effect addedX "x" (initField none none) rfl
  exact ⟨h5, h8, h9 "y" (by decide)⟩

/-- C9: focusing a name that is not registered does not leave the state
unchanged: it inserts a phantom entry holding only `active = true` (all
other properties absent), so the `fields` map has changed. -/
theorem focus_phantom_field (s : FormState) (n : String)
    (hf : lookupField n s.fields = none) :
    lookupField n (onFieldFocus n s).fields =
      some { emptyField with active := some true } ∧
    (onFieldFocus n s).fields ≠ s.fields := by
  have hl : lookupField n (onFieldFocus n s).fields =
      some { emptyField with active := some true } := by
    show lookupField n (assocField n (setActive (ofOpt (lookupField n s.fields)))
      s.fields) = _
    rw [lookupField_assocField, if_pos rfl, hf]
    rfl
  refine ⟨hl, ?_⟩
  intro heq
  rw [heq, hf] at hl
  exact Option.noConfusion hl

/-- Witness for C9 at the initial state and the unregistered name `"x"`. -/
theorem focus_phantom_field_witness :
    lookupField "x" (onFieldFocus "x" initialForm).fields =
      some { emptyField with active := some true } ∧
    (onFieldFocus "x" initialForm).fields ≠ initialForm.fields :=
  focus_phantom_field initialForm "x" rfl

/-- C10, counterexample: "the error branch is unreachable exactly when
the name is present" is false.  After focusing the unregistered `"x"`
the name is present (as a phantom without a `validations` list), yet
`onFieldChange` still reaches the TypeError. -/
theorem fieldChange_errors_on_present_phantom :
    Reachable phantomX ∧
    (lookupField "x" phantomX.fields).isSome = true ∧
    applyEvent (Event.fieldChange "x" "v") phantomX = none :=
  ⟨@Reachable.step initialForm phantomX (Event.fieldFocus "x") Reachable.init rfl,
   rfl, rfl⟩

/-- C10 (amended): `onFieldChange(name, value)` reaches the TypeError
exactly when `name` is absent from `fields` or its entry lacks a
`validations` list; in particular, on every state in which `name` is
absent the transform errors instead of acting as a no-op. -/
theorem fieldChange_none_iff (s : FormState) (n v : String) :
    (onFieldChange n v s = none ↔
      (lookupField n s.fields = none ∨
        ∃ f, lookupField n s.fields = some f ∧ f.validations = none)) := by
  unfold onFieldChange
  cases hm : validateField (updateValue v (ofOpt (lookupField n s.fields))) with
  | none =>
    rw [validateField_none_iff] at hm
    constructor
    · intro _
      cases hl : lookupField n s.fields with
      | none => exact Or.inl rfl
      | some f =>
        refine Or.inr ⟨f, rfl, ?_⟩
        rw [hl] at hm
        exact hm
    · intro _; rfl
  | some q =>
    constructor
    · intro hcontra; exact absurd hcontra (by simp)
    · intro hr
      exfalso
      have hne : ¬ (validateField (updateValue v (ofOpt (lookupField n s.fields))) = none) := by
        rw [hm]; simp
      rw [validateField_none_iff] at hne
      cases hr with
      | inl h0 => exact hne (by rw [h0]; rfl)
      | inr h1 =>
        obtain ⟨f, hlf, hvf⟩ := h1
        exact hne (by rw [hlf]; exact hvf)

/-- C5, counterexample: re-registering an existing name via `addField`
is a transform under which the name is present both before and after,
yet its `visited` flag transitions from true back to false (the new
field object starts with all lifecycle flags false). -/
theorem flags_monotone_fails_on_readd :
    Reachable blurredX ∧
    applyEvent (Event.addField "x" none none) blurredX = some readdedX ∧
    (lookupField "x" blurredX.fields).map Field.visited = some (some true) ∧
    (lookupField "x" readdedX.fields).map Field.visited = some (some false) :=
  ⟨@Reachable.step addedX blurredX (Event.fieldBlur "x")
      (@Reachable.step initialForm addedX (Event.addField "x" none none)
        Reachable.init rfl) rfl,
   rfl, rfl, rfl⟩

/-- C5 (amended): for every transform other than an `addField` targeting
the same name, a field name present in `fields` both before and after
the transform never has `visited`, `edited` or `submitted` go from true
to false. -/
theorem flags_monotone_per_step (e : Event) (s s' : FormState) (n : String)
    (f g : Field)
    (happ : applyEvent e s = some s')
    (hf : lookupField n s.fields = some f)
    (hg : lookupField n s'.fields = some g)
    (hnotadd : ∀ dv vs, e ≠ Event.addField n dv vs) :
    (f.visited = some true → g.visited = some true) ∧
    (f.edited = some true → g.edited = some true) ∧
    (f.submitted = some true → g.submitted = some true) := by
  cases e with
  | addField m dv vs =>
    simp only [applyEvent, Option.some.injEq] at happ
    subst happ
    by_cases hmn : m = n
    · subst hmn
      exact absurd rfl (hnotadd dv vs)
    · simp only [addField, validateForm_fields] at hg
      rw [lookupField_assocField, if_neg hmn, hf, Option.some.injEq] at hg
      subst hg
      exact ⟨id, id, id⟩
  | removeField m =>
    simp only [applyEvent, Option.some.injEq] at happ
    subst happ
    simp only [removeField, validateForm_fields] at hg
    rw [lookupField_dissocField] at hg
    split at hg
    · exact absurd hg (by simp)
    · rw [hf, Option.some.injEq] at hg
      subst hg
      exact ⟨id, id, id⟩
  | fieldChange m v =>
    simp only [applyEvent] at happ
    unfold onFieldChange at happ
    cases hm : validateField (updateValue v (ofOpt (lookupField m s.fields))) with
    | none => rw [hm] at happ; exact absurd happ (by simp)
    | some q =>
      rw [hm] at happ
      simp only [Option.some.injEq] at happ
      subst happ
      simp only [validateForm_fields] at hg
      rw [lookupField_assocField] at hg
      split at hg
      · next hmn =>
        subst hmn
        rw [Option.some.injEq] at hg
        subst hg
        rw [hf] at hm
        have hq := validateField_some _ _ hm
        have hframe := adjustDirty_frame q
        refine ⟨?_, ?_, ?_⟩
        · intro hv
          show (adjustDirty q).visited = some true
          rw [hframe.2.2.2.2.2.2.1, hq.2.2.2.2.1]
          exact hv
        · intro _
          rfl
        · intro hs
          show (adjustDirty q).submitted = some true
          rw [hframe.2.2.2.2.2.2.2.2, hq.2.2.2.2.2.2.2.1]
          exact hs
      · next hmn =>
        rw [hf, Option.some.injEq] at hg
        subst hg
        exact ⟨id, id, id⟩
  | fieldFocus m =>
    simp only [applyEvent, Option.some.injEq] at happ
    subst happ
    have hg2 : lookupField n (assocField m (setActive (ofOpt (lookupField m s.fields)))
        s.fields) = some g := hg
    rw [lookupField_assocField] at hg2
    split at hg2
    · next hmn =>
      subst hmn
      rw [hf, Option.some.injEq] at hg2
      subst hg2
      exact ⟨fun h => h, fun h => h, fun h => h⟩
    · next hmn =>
      rw [hf, Option.some.injEq] at hg2
      subst hg2
      exact ⟨id, id, id⟩
  | fieldBlur m =>
    simp only [applyEvent, Option.some.injEq] at happ
    subst happ
    have hg2 : lookupField n (assocField m (setInactive (setVisited
        (ofOpt (lookupField m s.fields)))) s.fields) = some g := hg
    rw [lookupField_assocField] at hg2
    split at hg2
    · next hmn =>
      subst hmn
      rw [hf, Option.some.injEq] at hg2
      subst hg2
      exact ⟨fun _ => rfl, fun h => h, fun h => h⟩
    · next hmn =>
      rw [hf, Option.some.injEq] at hg2
      subst hg2
      exact ⟨id, id, id⟩
  | formSubmitInvalid =>
    simp only [applyEvent, Option.some.injEq] at happ
    subst happ
    have hg2 : lookupField n (s.fields.map (fun p => (p.1, setSubmitted p.2)))
        = some g := hg
    rw [lookupField_mapVal, hf] at hg2
    simp only [Option.map_some', Option.some.injEq] at hg2
    subst hg2
    exact ⟨fun h => h, fun h => h, fun _ => rfl⟩
  | formSubmit =>
    simp only [applyEvent, Option.some.injEq] at happ
    subst happ
    have hg2 : lookupField n (s.fields.map (fun p => (p.1, setSubmitted p.2)))
        = some g := hg
    rw [lookupField_mapVal, hf] at hg2
    simp only [Option.map_some', Option.some.injEq] at hg2
    subst hg2
    exact ⟨fun h => h, fun h => h, fun _ => rfl⟩
  | formSubmitSuccess d =>
    simp only [applyEvent, Option.some.injEq] at happ
    subst happ
    have hg2 : lookupField n s.fields = some g := hg
    rw [hf, Option.some.injEq] at hg2
    subst hg2
    exact ⟨id, id, id⟩
  | formSubmitError e2 =>
    simp only [applyEvent, Option.some.injEq] at happ
    subst happ
    have hg2 : lookupField n s.fields = some g := hg
    rw [hf, Option.some.injEq] at hg2
    subst hg2
    exact ⟨id, id, id⟩

/-- Witness for C5 (amended) at the blur step from `addedX` to `blurredX`. -/
theorem flags_monotone_per_step_witness :
    ((initField none none).visited = some true →
      (setInactive (setVisited (initField none none))).visited = some true) ∧
    ((initField none none).edited = some true →
      (setInactive (setVisited (initField none none))).edited = some true) ∧
    ((initField none none).submitted = some true →
      (setInactive (setVisited (initField none none))).submitted = some true) :=
  flags_monotone_per_step (Event.fieldBlur "x") addedX blurredX "x"
    (initField none none) (setInactive (setVisited (initField none none)))
    rfl rfl rfl (fun _ _ h => Event.noConfusion h)

/-- C6: after `onFieldChange(name, v)` completes, the updated field
holds `value = v`, has `edited = true`, and its `dirty` flag is true
exactly when the new value differs from the field's `defaultValue`. -/
theorem dirty_correctness (s : FormState) (n v : String) (s' : FormState)
    (g : Field)
    (happ : applyEvent (Event.fieldChange n v) s = some s')
    (hg : lookupField n s'.fields = some g) :
    g.value = some v ∧ g.edited = some true ∧
    (g.dirty = some true ↔ g.value ≠ g.defaultValue) := by
  simp only [applyEvent] at happ
  unfold onFieldChange at happ
  cases hm : validateField (updateValue v (ofOpt (lookupField n s.fields))) with
  | none => rw [hm] at happ; exact absurd happ (by simp)
  | some q =>
    rw [hm] at happ
    simp only [Option.some.injEq] at happ
    subst happ
    simp only [validateForm_fields] at hg
    rw [lookupField_assocField, if_pos rfl, Option.some.injEq] at hg
    subst hg
    have hq := validateField_some _ _ hm
    have hframe := adjustDirty_frame q
    have hqv : q.value = some v := by
      rw [hq.1]
      rfl
    refine ⟨?_, ?_, ?_⟩
    · show (adjustDirty q).value = some v
      rw [hframe.1]
      exact hqv
    · rfl
    · show (adjustDirty q).dirty = some true ↔
        (adjustDirty q).value ≠ (adjustDirty q).defaultValue
      rw [hframe.1, hframe.2.1]
      exact adjustDirty_dirty_iff q

/-- Witness for C6 at the concrete change of field `"x"` to `"hi"`. -/
theorem dirty_correctness_witness :
    fldChangedX.value = some "hi" ∧ fldChangedX.edited = some true ∧
    (fldChangedX.dirty = some true ↔ fldChangedX.value ≠ fldChangedX.defaultValue) :=
  dirty_correctness addedX "x" "hi" changedX fldChangedX rfl rfl

end Informal
